import Mathlib

/-! # tckinfo: print out information about a track file

A shallow embedding of `run ()` of `cmd/tckinfo.cpp`.

`std::string` is embedded as `String`; one `Char` stands for one C++ `char`.
Standard output is not a value in the C++ program, so the embedding makes the
effects of `run` explicit: every statement writing to `std::cout` and every
invocation `file (tck)` of the reader appends one `Event` to a log, in program
order.  An exception leaving `run` is recorded next to the log; what has been
written before the exception stays written.
-/

namespace Tckinfo

/-! ## Collaborators of `run` that live outside `cmd/tckinfo.cpp` -/

/-- The exception type `MR::Exception`; only its description is kept. -/
structure Exception where
  description : String
  deriving DecidableEq, Repr

/-- A streamline `Tractography::Streamline<ValueType>`: a sequence of 3-D points. -/
abbrev Streamline (ValueType : Type) := List (ValueType × ValueType × ValueType)

/-- Modelled from the spec: `Tractography::Properties` (declared in
`dwi/tractography/properties.h`) is the metadata object of a track file.
`entries` is the key/value mapping in the order in which `for (auto& p: properties)`
visits it, which the spec gives as insertion order; `comments` is the ordered
comment sequence; `roi` is the ordered sequence of (name, payload) pairs. -/
structure Properties where
  entries : List (String × String)
  comments : List String
  roi : List (String × String)
  deriving DecidableEq, Repr

/-- Modelled from the spec: the three outcomes of the stepping operation
`file (tck)` of `Tractography::Reader<ValueType>` (declared in
`dwi/tractography/file.h`).  `track tck`: a streamline was decoded into `tck`
and the call returns `true`.  `finished`: end of data, the call returns `false`.
`failed e`: the read failed and the failure is surfaced to the caller, which for
a C++ call returning `bool` is an exception. -/
inductive Step (ValueType : Type) where
  | track (tck : Streamline ValueType)
  | finished
  | failed (e : Exception)
  deriving DecidableEq, Repr

/-- Modelled from the spec: a reader is represented by the results that its
successive stepping calls are going to return.  No relation between the
results is assumed (a script may hold a streamline after `finished`).  The
script is finite: a track file is finite and every streamline that the reader
yields uses up at least its end-of-streamline triple.  A reader whose script is
used up reports end of data, as the spec asks of an exhausted reader. -/
abbrev Reader (ValueType : Type) := List (Step ValueType)

/-- Modelled from the spec: the constructor
`Tractography::Reader<float> file (argument[i], properties)`.  For a path it
either throws (the header cannot be parsed, the file cannot be opened) or
fills `properties` and leaves a reader positioned at the start of the data. -/
abbrev Files (ValueType : Type) := String → Except Exception (Properties × Reader ValueType)

/-- Modelled from the spec: `join (V, delimiter)` of `mrtrix.h`, the members of `V`
separated by `delimiter`. -/
def join : List String → String → String
  | [], _ => ""
  | [s], _ => s
  | s :: t :: rest, delimiter => s ++ delimiter ++ join (t :: rest) delimiter

/-- The member function `std::string::resize (n, c)`: the first `n` characters,
padded with `c` up to length `n`. -/
def resize (S : String) (n : Nat) (c : Char) : String :=
  ⟨S.data.take n ++ List.replicate (n - S.data.length) c⟩

/-! ## Effects -/

/-- What a call `file (tck)` did, as far as `run` can see. -/
inductive Outcome where
  | returnedTrue
  | returnedFalse
  | threw
  deriving DecidableEq, Repr

/-- One observable action of `run`. -/
inductive Event where
  | cout (text : String)
  | call (outcome : Outcome)
  deriving DecidableEq, Repr

/-- The log of a run and the exception that ended it, if one did. -/
structure Result where
  log : List Event
  uncaught : Option Exception
  deriving DecidableEq, Repr

/-- The text on standard output after the events of `log`. -/
def stdout : List Event → String
  | [] => ""
  | .cout text :: rest => text ++ stdout rest
  | .call _ :: rest => stdout rest

/-- The calls of the stepping operation in `log`, in order. -/
def calls : List Event → List Outcome
  | [] => []
  | .cout _ :: rest => calls rest
  | .call o :: rest => o :: calls rest

/-! ## `run` -/

/-- Lines 54-58: `for (auto& p: properties) { ... }`. -/
def printProperties : List (String × String) → List Event → List Event
  | [], log => log
  | p :: rest, log =>
      let S := resize (p.1 ++ ":") 22 ' '
      printProperties rest (log ++ [.cout ("    " ++ S ++ p.2 ++ "\n")])

/-- Lines 60-63: the comments block. -/
def printComments (comments : List String) (log : List Event) : List Event :=
  if ! comments.isEmpty then
    log ++ [.cout "    Comments:             ", .cout (join comments "\n " ++ "\n")]
  else
    log

/-- Lines 65-66: `for (auto& r: properties.roi) ...`. -/
def printROI : List (String × String) → List Event → List Event
  | [], log => log
  | r :: rest, log =>
      printROI rest (log ++ [.cout ("    ROI:                  " ++ r.1 ++ " " ++ r.2 ++ "\n")])

/-- Lines 75-78: `while (file (tck)) { ++count; ++progress; }`.  Returns the
count (or the exception thrown by the reader), the reader as the loop leaves
it, and the log.  The progress bar writes to the terminal only and has no
influence on the loop; `count` is a `size_t` that is incremented once per
streamline and cannot wrap for a file that fits the file system. -/
def countLoop {ValueType : Type} :
    Reader ValueType → Nat → List Event → Except Exception Nat × Reader ValueType × List Event
  | [], count, log => (.ok count, [], log ++ [.call .returnedFalse])
  | .track _ :: file, count, log => countLoop file (count + 1) (log ++ [.call .returnedTrue])
  | .finished :: file, count, log => (.ok count, file, log ++ [.call .returnedFalse])
  | .failed e :: file, _, log => (.error e, file, log ++ [.call .threw])

/-- Lines 47-84: the loop `for (size_t i = 0; i < argument.size(); ++i) { ... }`
over the arguments that are left, continuing the log. -/
def forLoop {ValueType : Type} (files : Files ValueType) (actual_count : Bool) :
    List String → List Event → Result
  | [], log => ⟨log, none⟩
  | arg :: rest, log =>
      match files arg with
      | .error e => ⟨log, some e⟩
      | .ok (properties, file) =>
          let log := log ++ [.cout "***********************************\n"]
          let log := log ++ [.cout ("  Tracks file: \"" ++ arg ++ "\"\n")]
          let log := printProperties properties.entries log
          let log := printComments properties.comments log
          let log := printROI properties.roi log
          if actual_count then
            match countLoop file 0 log with
            | (.ok count, _, log) =>
                forLoop files actual_count rest
                  (log ++ [.cout ("actual count in file: " ++ toString count ++ "\n")])
            | (.error e, _, log) => ⟨log, some e⟩
          else
            forLoop files actual_count rest log

/-- The function `run ()`: `count` is `get_options ("count").size()`, the number of
times the option was given, and `argument` the list of track files. -/
def run {ValueType : Type} (files : Files ValueType) (count : Nat) (argument : List String) :
    Result :=
  let actual_count := decide (count ≠ 0)
  forLoop files actual_count argument []

/-- Modelled from the spec: the exit code of the command, 0 when `run` returns
and nonzero when an exception leaves it (the wrapper is in `command.h`). -/
def exitCode (r : Result) : Nat :=
  match r.uncaught with
  | none => 0
  | some _ => 1

/-! ## Vocabulary of the statements -/

/-- The label in front of a metadata value: `S` of lines 55-56 for the key `key`. -/
def label (key : String) : String := resize (key ++ ":") 22 ' '

/-- The event of line 57 for one metadata entry. -/
def metadataLine (p : String × String) : Event :=
  .cout ("    " ++ label p.1 ++ p.2 ++ "\n")

/-- The event of line 66 for one ROI entry. -/
def roiLine (r : String × String) : Event :=
  .cout ("    ROI:                  " ++ r.1 ++ " " ++ r.2 ++ "\n")

/-- The events of lines 60-63 for a comment sequence. -/
def commentBlock (comments : List String) : List Event :=
  if comments = [] then []
  else [.cout "    Comments:             ", .cout (join comments "\n " ++ "\n")]

/-- The header report of one file, stated declaratively: the banner, the file
name, one event per metadata entry, the comment block, one event per ROI. -/
def report (arg : String) (properties : Properties) : List Event :=
  [.cout "***********************************\n", .cout ("  Tracks file: \"" ++ arg ++ "\"\n")]
    ++ properties.entries.map metadataLine
    ++ commentBlock properties.comments
    ++ properties.roi.map roiLine

/-- Whether a step yields a streamline (the call returns `true`). -/
def Step.isTrack {ValueType : Type} : Step ValueType → Bool
  | .track _ => true
  | _ => false

/-- The number of consecutive successful steps of a reader before its first
unsuccessful one. -/
def yielded {ValueType : Type} (file : Reader ValueType) : Nat :=
  (file.takeWhile Step.isTrack).length

/-- How the first unsuccessful step of a reader ends: `none` when it reports
end of data, `some e` when it fails with `e`. -/
def ending {ValueType : Type} (file : Reader ValueType) : Option Exception :=
  match file.dropWhile Step.isTrack with
  | .failed e :: _ => some e
  | _ => none

/-- The event of line 80 for a count. -/
def countLine (count : Nat) : Event :=
  .cout ("actual count in file: " ++ toString count ++ "\n")

/-- The calls that the loop of lines 75-78 makes on a reader. -/
def stepping {ValueType : Type} (file : Reader ValueType) : List Event :=
  List.replicate (yielded file) (.call .returnedTrue)
    ++ [.call (match ending file with | none => .returnedFalse | some _ => .threw)]

/-- How the processing of a file that opened ends: `some e` when exact counting
is on and the reader fails with `e`. -/
def fileEnding {ValueType : Type} (actual_count : Bool) (file : Reader ValueType) :
    Option Exception :=
  if actual_count then ending file else none

/-- The events of one file that opened: its report and, when exact counting is
on, the calls on its reader and the count line if the reader did not fail. -/
def fileEvents {ValueType : Type} (actual_count : Bool) (arg : String) (properties : Properties)
    (file : Reader ValueType) : List Event :=
  report arg properties ++
    (if actual_count then
      stepping file ++ (match ending file with
        | none => [countLine (yielded file)]
        | some _ => [])
    else [])

/-- A reader with every streamline it yields replaced through `f`. -/
def Step.withTrack {V W : Type} (f : Streamline V → Streamline W) : Step V → Step W
  | .track tck => .track (f tck)
  | .finished => .finished
  | .failed e => .failed e

/-- The files with every streamline that their readers yield replaced through `f`;
headers, failures to open and the kind of every step stay as they are. -/
def withTracks {V W : Type} (f : Streamline V → Streamline W) (files : Files V) : Files W :=
  fun path =>
    match files path with
    | .error e => .error e
    | .ok (properties, file) => .ok (properties, file.map (Step.withTrack f))

/-! ## The output read as text -/

/-- The lines of a text: the pieces between its newline characters. -/
def lines : List Char → List (List Char)
  | [] => [[]]
  | c :: cs =>
      if c = '\n' then [] :: lines cs
      else
        match lines cs with
        | [] => [[c]]
        | l :: ls => (c :: l) :: ls

/-- A string without a newline character. -/
def oneLine (s : String) : Bool := decide ('\n' ∉ s.data)

/-- The point `p0` of the scenario. -/
def p0 : Float × Float × Float := (0.0, 0.0, 0.0)

/-- The point `p1` of the scenario. -/
def p1 : Float × Float × Float := (1.0, 0.5, 0.25)

/-- The header of the scenario, with a declared count. -/
def scenarioProperties : Properties :=
  ⟨[("datatype", "Float32LE"), ("count", "3")], ["subject 07"], [("seed_mask", "<path>")]⟩

/-- The same header with a wrong declared count. -/
def miscountedProperties : Properties :=
  ⟨[("datatype", "Float32LE"), ("count", "5")], ["subject 07"], [("seed_mask", "<path>")]⟩

/-- Three streamlines of lengths 2, 0 and 1, then end of file. -/
def scenarioReader : Reader Float :=
  [.track [p0, p1], .track [], .track [p0], .finished]

/-- The body truncated in the third streamline: the third step fails. -/
def truncatedReader : Reader Float :=
  [.track [p0, p1], .track [], .failed ⟨"short read"⟩]

/-- A small file system: three track files, every other path cannot be opened. -/
def scenario : Files Float := fun path =>
  if path = "tracks.tck" then .ok (scenarioProperties, scenarioReader)
  else if path = "miscounted.tck" then .ok (miscountedProperties, scenarioReader)
  else if path = "truncated.tck" then .ok (scenarioProperties, truncatedReader)
  else .error ⟨"cannot open file"⟩

/-- A header that holds the text "subject 07" as the value of a key `Comments`. -/
def asMetadata : Properties := ⟨[("Comments", "subject 07")], [], []⟩

/-- A header that holds the text "subject 07" as its only comment. -/
def asComment : Properties := ⟨[], ["subject 07"], []⟩

theorem printProperties_eq (ps : List (String × String)) (log : List Event) :
    printProperties ps log = log ++ ps.map metadataLine := by
  induction ps generalizing log with
  | nil => simp [printProperties]
  | cons p ps ih => simp [printProperties, ih, metadataLine, label]

theorem printROI_eq (rs : List (String × String)) (log : List Event) :
    printROI rs log = log ++ rs.map roiLine := by
  induction rs generalizing log with
  | nil => simp [printROI]
  | cons r rs ih => simp [printROI, ih, roiLine]

theorem printComments_eq (comments : List String) (log : List Event) :
    printComments comments log = log ++ commentBlock comments := by
  cases comments <;> simp [printComments, commentBlock]

theorem yielded_nil {V : Type} : yielded ([] : Reader V) = 0 := rfl

theorem yielded_track {V : Type} (tck : Streamline V) (file : Reader V) :
    yielded (.track tck :: file) = yielded file + 1 := by
  simp [yielded, Step.isTrack]

theorem yielded_finished {V : Type} (file : Reader V) : yielded (.finished :: file) = 0 := by
  simp [yielded, Step.isTrack]

theorem yielded_failed {V : Type} (e : Exception) (file : Reader V) :
    yielded (.failed e :: file) = 0 := by
  simp [yielded, Step.isTrack]

theorem ending_nil {V : Type} : ending ([] : Reader V) = none := rfl

theorem ending_track {V : Type} (tck : Streamline V) (file : Reader V) :
    ending (.track tck :: file) = ending file := by
  simp [ending, Step.isTrack]

theorem ending_finished {V : Type} (file : Reader V) : ending (.finished :: file) = none := by
  simp [ending, Step.isTrack]

theorem ending_failed {V : Type} (e : Exception) (file : Reader V) :
    ending (.failed e :: file) = some e := by
  simp [ending, Step.isTrack]

theorem countLoop_eq {V : Type} (file : Reader V) (count : Nat) (log : List Event) :
    countLoop file count log =
      ((match ending file with
        | none => .ok (count + yielded file)
        | some e => .error e),
       file.drop (yielded file + 1),
       log ++ stepping file) := by
  induction file generalizing count log with
  | nil => simp [countLoop, stepping, yielded_nil, ending_nil]
  | cons s file ih =>
    cases s with
    | track tck =>
      simp [countLoop, ih, stepping, yielded_track, ending_track, List.replicate_succ]
      cases ending file with
      | none => simp; omega
      | some e => rfl
    | finished => simp [countLoop, stepping, yielded_finished, ending_finished]
    | failed e => simp [countLoop, stepping, yielded_failed, ending_failed]

theorem forLoop_error {V : Type} (files : Files V) (c : Bool) (arg : String)
    (rest : List String) (log : List Event) (e : Exception) (h : files arg = .error e) :
    forLoop files c (arg :: rest) log = ⟨log, some e⟩ := by
  simp [forLoop, h]

theorem forLoop_ok {V : Type} (files : Files V) (c : Bool) (arg : String)
    (rest : List String) (log : List Event) (p : Properties) (file : Reader V)
    (h : files arg = .ok (p, file)) :
    forLoop files c (arg :: rest) log =
      match fileEnding c file with
      | none => forLoop files c rest (log ++ fileEvents c arg p file)
      | some e => ⟨log ++ fileEvents c arg p file, some e⟩ := by
  cases c with
  | false =>
    simp [forLoop, h, fileEnding, fileEvents, report, printProperties_eq, printComments_eq,
      printROI_eq]
  | true =>
    simp only [forLoop, h, fileEnding, fileEvents, report, printProperties_eq, printComments_eq,
      printROI_eq, countLoop_eq, if_true]
    cases ending file with
    | none => simp [countLine]
    | some e => simp

theorem forLoop_log {V : Type} (files : Files V) (c : Bool) (args : List String)
    (log : List Event) :
    forLoop files c args log =
      ⟨log ++ (forLoop files c args []).log, (forLoop files c args []).uncaught⟩ := by
  induction args generalizing log with
  | nil => simp [forLoop]
  | cons arg rest ih =>
    cases h : files arg with
    | error e => simp [forLoop_error files c arg rest _ e h]
    | ok v =>
      obtain ⟨p, file⟩ := v
      rw [forLoop_ok files c arg rest log p file h, forLoop_ok files c arg rest [] p file h]
      cases fileEnding c file with
      | none =>
        simp only []
        rw [ih (log ++ fileEvents c arg p file), ih ([] ++ fileEvents c arg p file)]
        simp
      | some e => simp

theorem forLoop_append {V : Type} (files : Files V) (c : Bool) (pre post : List String)
    (log : List Event) :
    forLoop files c (pre ++ post) log =
      match (forLoop files c pre log).uncaught with
      | none => forLoop files c post (forLoop files c pre log).log
      | some _ => forLoop files c pre log := by
  induction pre generalizing log with
  | nil => simp [forLoop]
  | cons arg rest ih =>
    cases h : files arg with
    | error e => simp [forLoop_error files c arg _ _ e h]
    | ok v =>
      obtain ⟨p, file⟩ := v
      rw [List.cons_append, forLoop_ok files c arg (rest ++ post) log p file h,
        forLoop_ok files c arg rest log p file h]
      cases fileEnding c file with
      | none => simp only []; exact ih _
      | some e => simp

theorem run_nil {V : Type} (files : Files V) (count : Nat) :
    run files count [] = ⟨[], none⟩ := rfl

theorem run_error {V : Type} (files : Files V) (count : Nat) (arg : String)
    (rest : List String) (e : Exception) (h : files arg = .error e) :
    run files count (arg :: rest) = ⟨[], some e⟩ := by
  simp [run, forLoop_error files _ arg rest _ e h]

theorem run_ok {V : Type} (files : Files V) (count : Nat) (arg : String)
    (rest : List String) (p : Properties) (file : Reader V) (h : files arg = .ok (p, file)) :
    run files count (arg :: rest) =
      match fileEnding (decide (count ≠ 0)) file with
      | none =>
          ⟨fileEvents (decide (count ≠ 0)) arg p file ++ (run files count rest).log,
            (run files count rest).uncaught⟩
      | some e => ⟨fileEvents (decide (count ≠ 0)) arg p file, some e⟩ := by
  simp only [run]
  rw [forLoop_ok files _ arg rest [] p file h]
  cases fileEnding (decide (count ≠ 0)) file with
  | none => simp only []; rw [forLoop_log]; simp
  | some e => simp

theorem run_append {V : Type} (files : Files V) (count : Nat) (pre post : List String) :
    run files count (pre ++ post) =
      match (run files count pre).uncaught with
      | none =>
          ⟨(run files count pre).log ++ (run files count post).log,
            (run files count post).uncaught⟩
      | some _ => run files count pre := by
  simp only [run]
  rw [forLoop_append]
  cases (forLoop files (decide (count ≠ 0)) pre []).uncaught with
  | none => simp only []; rw [forLoop_log]
  | some e => rfl

theorem yielded_withTrack {V W : Type} (f : Streamline V → Streamline W) (file : Reader V) :
    yielded (file.map (Step.withTrack f)) = yielded file := by
  induction file with
  | nil => rfl
  | cons s file ih =>
    cases s with
    | track tck => simp only [List.map_cons, Step.withTrack, yielded_track, ih]
    | finished => simp only [List.map_cons, Step.withTrack, yielded_finished]
    | failed e => simp only [List.map_cons, Step.withTrack, yielded_failed]

theorem ending_withTrack {V W : Type} (f : Streamline V → Streamline W) (file : Reader V) :
    ending (file.map (Step.withTrack f)) = ending file := by
  induction file with
  | nil => rfl
  | cons s file ih =>
    cases s with
    | track tck => simp only [List.map_cons, Step.withTrack, ending_track, ih]
    | finished => simp only [List.map_cons, Step.withTrack, ending_finished]
    | failed e => simp only [List.map_cons, Step.withTrack, ending_failed]

theorem run_withTracks {V W : Type} (f : Streamline V → Streamline W) (files : Files V)
    (count : Nat) (argument : List String) :
    run (withTracks f files) count argument = run files count argument := by
  induction argument with
  | nil => rfl
  | cons arg rest ih =>
    cases h : files arg with
    | error e =>
      have h' : withTracks f files arg = .error e := by simp [withTracks, h]
      rw [run_error _ count arg rest e h, run_error _ count arg rest e h']
    | ok v =>
      obtain ⟨p, file⟩ := v
      have h' : withTracks f files arg = .ok (p, file.map (Step.withTrack f)) := by
        simp [withTracks, h]
      rw [run_ok _ count arg rest p file h, run_ok _ count arg rest p _ h', ih]
      simp only [fileEnding, fileEvents, stepping, yielded_withTrack, ending_withTrack]

theorem uncaught_run_cons {V : Type} (files : Files V) (count : Nat) (arg : String)
    (rest : List String) :
    (run files count (arg :: rest)).uncaught = none ↔
      (∃ p file, files arg = .ok (p, file) ∧ (count ≠ 0 → ending file = none))
        ∧ (run files count rest).uncaught = none := by
  cases h : files arg with
  | error e => simp [run_error files count arg rest e h]
  | ok v =>
    obtain ⟨p, file⟩ := v
    rw [run_ok files count arg rest p file h]
    by_cases hc : count = 0
    · simp [fileEnding, hc]
    · cases he : ending file with
      | none =>
        simp only [fileEnding, hc, he, ne_eq, not_false_eq_true, decide_True, if_true]
        constructor
        · intro hrest
          exact ⟨⟨p, file, rfl, fun _ => he⟩, hrest⟩
        · exact fun hrest => hrest.2
      | some e =>
        simp only [fileEnding, hc, he, ne_eq, not_false_eq_true, decide_True, if_true]
        constructor
        · intro hrest
          cases hrest
        · rintro ⟨⟨q, file', hq, hend⟩, -⟩
          cases hq
          rw [he] at hend
          cases hend trivial

theorem exitCode_eq_zero (r : Result) : exitCode r = 0 ↔ r.uncaught = none := by
  unfold exitCode
  cases r.uncaught <;> simp

theorem stdout_append (a b : List Event) : stdout (a ++ b) = stdout a ++ stdout b := by
  induction a with
  | nil => simp [stdout]
  | cons e a ih =>
    cases e with
    | cout text => simp [stdout, ih, String.append_assoc]
    | call o => simp [stdout, ih]

theorem calls_append (a b : List Event) : calls (a ++ b) = calls a ++ calls b := by
  induction a with
  | nil => simp [calls]
  | cons e a ih =>
    cases e with
    | cout text => simp [calls, ih]
    | call o => simp [calls, ih]

theorem calls_report (arg : String) (p : Properties) : calls (report arg p) = [] := by
  have h1 : ∀ es : List (String × String), calls (es.map metadataLine) = [] := by
    intro es; induction es with
    | nil => rfl
    | cons e es ih => simpa [calls, metadataLine] using ih
  have h2 : ∀ rs : List (String × String), calls (rs.map roiLine) = [] := by
    intro rs; induction rs with
    | nil => rfl
    | cons r rs ih => simpa [calls, roiLine] using ih
  have h3 : calls (commentBlock p.comments) = [] := by
    unfold commentBlock; split <;> simp [calls]
  simp [report, calls_append, h1, h2, h3, calls]

/-! ## Labels -/

theorem label_data (key : String) :
    (label key).data =
      (key.data ++ [':']).take 22 ++ List.replicate (22 - (key.data.length + 1)) ' ' := by
  simp [label, resize]

theorem label_length (key : String) : (label key).length = 22 := by
  have h : (label key).length = (label key).data.length := rfl
  rw [h, label_data]
  simp [List.length_take]
  omega

theorem label_short (key : String) (h : key.length ≤ 21) :
    label key = key ++ ":" ++ ⟨List.replicate (21 - key.length) ' '⟩ := by
  have hlen : key.data.length ≤ 21 := h
  apply String.ext
  rw [label_data]
  have h1 : (key.data ++ [':']).take 22 = key.data ++ [':'] :=
    List.take_of_length_le (by simp; omega)
  have h2 : 22 - (key.data.length + 1) = 21 - key.length := by
    show 22 - (key.data.length + 1) = 21 - key.data.length
    omega
  rw [h1, h2]
  rfl

theorem label_long (key : String) (h : 22 ≤ key.length) : label key = ⟨key.data.take 22⟩ := by
  have hlen : 22 ≤ key.data.length := h
  apply String.ext
  rw [label_data]
  have h1 : (key.data ++ [':']).take 22 = key.data.take 22 :=
    List.take_append_of_le_length hlen
  have h2 : 22 - (key.data.length + 1) = 0 := by omega
  rw [h1, h2]
  simp

theorem padding_inj (a : Nat) : ∀ (b : Nat) (k l : List Char),
    List.replicate a ' ' ++ ':' :: k = List.replicate b ' ' ++ ':' :: l → k = l := by
  induction a with
  | zero =>
    intro b k l h
    cases b with
    | zero => simpa using h
    | succ b => simp [List.replicate_succ] at h
  | succ a ih =>
    intro b k l h
    cases b with
    | zero => simp [List.replicate_succ] at h
    | succ b =>
      simp only [List.replicate_succ, List.cons_append, List.cons.injEq, true_and] at h
      exact ih b k l h

theorem label_inj (key other : String) (h1 : key.length ≤ 21) (h2 : other.length ≤ 21)
    (h : label key = label other) : key = other := by
  rw [label_short key h1, label_short other h2] at h
  have hd := congrArg (fun s => s.data.reverse) h
  simp only [String.data_append, List.reverse_append, List.reverse_replicate] at hd
  simp only [List.reverse_cons, List.reverse_nil, List.nil_append, List.singleton_append] at hd
  have hk := padding_inj _ _ _ _ hd
  exact String.ext (List.reverse_injective hk)

/-! ## Lines of the output -/

theorem lines_line (a rest : List Char) (h : '\n' ∉ a) :
    lines (a ++ '\n' :: rest) = a :: lines rest := by
  induction a with
  | nil => simp [lines]
  | cons c a ih =>
    have hc : c ≠ '\n' := fun e => h (by simp [e])
    have ha : '\n' ∉ a := fun e => h (by simp [e])
    simp [lines, hc, ih ha]

theorem oneLine_iff (s : String) : oneLine s = true ↔ '\n' ∉ s.data := by
  simp [oneLine]

theorem label_oneLine (key : String) (h : '\n' ∉ key.data) : '\n' ∉ (label key).data := by
  rw [label_data]
  intro hm
  rcases List.mem_append.1 hm with h1 | h2
  · have h3 := List.mem_of_mem_take h1
    rcases List.mem_append.1 h3 with h4 | h4
    · exact h h4
    · simp at h4
  · have h3 := List.eq_of_mem_replicate h2
    exact absurd h3 (by decide)

theorem stdout_cout (t : String) (l : List Event) : stdout (.cout t :: l) = t ++ stdout l := rfl

theorem join_cons_cons (c d : String) (cs : List String) (delimiter : String) :
    join (c :: d :: cs) delimiter = c ++ delimiter ++ join (d :: cs) delimiter := rfl

theorem run_log_report {V : Type} (files : Files V) (count : Nat) (arg : String)
    (rest : List String) (p : Properties) (file : Reader V) (h : files arg = .ok (p, file)) :
    ∃ tail, (run files count (arg :: rest)).log = report arg p ++ tail := by
  rw [run_ok files count arg rest p file h]
  unfold fileEvents
  cases fileEnding (decide (count ≠ 0)) file with
  | none => exact ⟨_, List.append_assoc _ _ _⟩
  | some e => exact ⟨_, rfl⟩

theorem intercalate_go (delimiter : String) (cs : List String) : ∀ (acc c : String),
    String.intercalate.go (acc ++ c) delimiter cs = acc ++ join (c :: cs) delimiter := by
  induction cs with
  | nil => intro acc c; rfl
  | cons d cs ih =>
    intro acc c
    have h : acc ++ c ++ delimiter ++ d = (acc ++ c ++ delimiter) ++ d := rfl
    rw [String.intercalate.go, h, ih, join_cons_cons]
    simp [String.append_assoc]

theorem join_eq_intercalate (cs : List String) (delimiter : String) :
    join cs delimiter = delimiter.intercalate cs := by
  cases cs with
  | nil => rfl
  | cons c cs =>
    have h := intercalate_go delimiter cs "" c
    simp only [String.empty_append] at h
    rw [String.intercalate, h]

theorem report_with_entry (arg : String) (es rest : List (String × String)) (k v : String)
    (cs : List String) (rs : List (String × String)) (tail : List Event) :
    ∃ R, (stdout (report arg ⟨es ++ (k, v) :: rest, cs, rs⟩ ++ tail)).data =
      (stdout (report arg ⟨es, [], []⟩)).data ++ ("    ".data ++ ((label k).data ++ R)) := by
  refine ⟨(v ++ "\n" ++ stdout (rest.map metadataLine ++ commentBlock cs ++ rs.map roiLine
    ++ tail)).data, ?_⟩
  simp only [report, commentBlock, List.map_append, List.map_cons, List.map_nil, stdout_append,
    stdout_cout, metadataLine, String.data_append, List.append_assoc, if_true, List.append_nil,
    stdout]
  simp [stdout_append, stdout_cout]

theorem report_with_comment (arg : String) (es : List (String × String)) (c : String)
    (cs : List String) (rs : List (String × String)) (tail : List Event) :
    ∃ R, (stdout (report arg ⟨es, c :: cs, rs⟩ ++ tail)).data =
      (stdout (report arg ⟨es, [], []⟩)).data
        ++ ("    ".data ++ ("Comments:             ".data ++ R)) := by
  refine ⟨(join (c :: cs) "\n " ++ "\n" ++ stdout (rs.map roiLine ++ tail)).data, ?_⟩
  simp only [report, commentBlock, List.map_nil, stdout_append,
    stdout_cout, String.data_append, List.append_assoc, if_true, List.append_nil,
    stdout, if_false, reduceCtorEq]
  simp [stdout_append, stdout_cout]

/-- C1: in exact-count mode the number printed after "actual count in file: "
is the number of consecutive successful steps of the reader before its first
unsuccessful one; the reader is stepped exactly that many times plus one, the
last of these calls being the first unsuccessful one, and the loop leaves the
reader right behind that step.  When the first unsuccessful step is a failure
the exception leaves `run` and no count is printed. -/
theorem exact_count_is_number_of_successful_steps {V : Type} (files : Files V) (count : Nat)
    (pre : List String) (arg : String) (p : Properties) (file : Reader V)
    (hcount : count ≠ 0) (hpre : (run files count pre).uncaught = none)
    (hopen : files arg = .ok (p, file)) :
    (ending file = none →
      run files count (pre ++ [arg]) =
        ⟨(run files count pre).log ++ report arg p
            ++ List.replicate (file.takeWhile Step.isTrack).length (.call .returnedTrue)
            ++ [.call .returnedFalse,
                .cout ("actual count in file: "
                  ++ toString (file.takeWhile Step.isTrack).length ++ "\n")],
          none⟩)
    ∧ (∀ e, ending file = some e →
      run files count (pre ++ [arg]) =
        ⟨(run files count pre).log ++ report arg p
            ++ List.replicate (file.takeWhile Step.isTrack).length (.call .returnedTrue)
            ++ [.call .threw],
          some e⟩)
    ∧ (countLoop file 0 ((run files count pre).log ++ report arg p)).2.1
        = file.drop ((file.takeWhile Step.isTrack).length + 1) := by
  have hc : decide (count ≠ 0) = true := by simpa using hcount
  have hrun : run files count (pre ++ [arg]) =
      match ending file with
      | none => ⟨(run files count pre).log ++ (report arg p ++ (stepping file
          ++ [countLine (yielded file)])), none⟩
      | some e => ⟨(run files count pre).log ++ (report arg p ++ stepping file), some e⟩ := by
    rw [run_append, hpre, run_ok files count arg [] p file hopen, hc]
    simp only [fileEnding, fileEvents, if_true, run_nil]
    cases ending file with
    | none => simp
    | some e => simp
  refine ⟨?_, ?_, ?_⟩
  · intro h
    rw [hrun, h]
    simp [stepping, h, countLine, yielded]
  · intro e h
    rw [hrun, h]
    simp [stepping, h, yielded]
  · rw [countLoop_eq]; rfl

theorem exact_count_is_number_of_successful_steps_witness :
    run scenario 1 ["tracks.tck"] =
      ⟨report "tracks.tck" scenarioProperties
          ++ [.call .returnedTrue, .call .returnedTrue, .call .returnedTrue, .call .returnedFalse,
              .cout "actual count in file: 3\n"],
        none⟩ :=
  (exact_count_is_number_of_successful_steps scenario 1 [] "tracks.tck" scenarioProperties
    scenarioReader (by decide) rfl rfl).1 (by decide)

/-- C2: zero-length streamlines are counted.  Replacing every streamline that
the readers yield by any other one (of any length) changes nothing in what
`run` does, so the exact count depends only on how many streamlines are yielded;
and a file whose reader yields streamlines of lengths 2, 0 and 1 and then
reports end of file gets the exact count 3. -/
theorem exact_count_ignores_streamline_lengths {V W : Type} (files : Files V)
    (f : Streamline V → Streamline W) (count : Nat) (argument : List String)
    (arg : String) (p : Properties) (a b c : V × V × V)
    (hcount : count ≠ 0)
    (hopen : files arg = .ok (p, [.track [a, b], .track [], .track [c], .finished])) :
    run (withTracks f files) count argument = run files count argument
    ∧ run files count [arg] =
        ⟨report arg p
            ++ [.call .returnedTrue, .call .returnedTrue, .call .returnedTrue,
                .call .returnedFalse, .cout "actual count in file: 3\n"],
          none⟩ := by
  refine ⟨run_withTracks f files count argument, ?_⟩
  have hc : decide (count ≠ 0) = true := by simpa using hcount
  rw [run_ok files count arg [] p _ hopen, hc]
  simp [fileEnding, fileEvents, run_nil, ending, yielded, stepping, countLine, Step.isTrack]
  rfl

theorem exact_count_ignores_streamline_lengths_witness :
    run (withTracks (fun _ => ([] : Streamline Float)) scenario) 1
        ["tracks.tck", "truncated.tck"] = run scenario 1 ["tracks.tck", "truncated.tck"]
    ∧ stdout (run scenario 1 ["tracks.tck"]).log =
        stdout (report "tracks.tck" scenarioProperties) ++ "actual count in file: 3\n" := by
  have h := exact_count_ignores_streamline_lengths scenario (fun _ => ([] : Streamline Float)) 1
    ["tracks.tck", "truncated.tck"] "tracks.tck" scenarioProperties p0 p1 p0 (by decide) rfl
  refine ⟨h.1, ?_⟩
  rw [h.2, stdout_append]
  rfl

/-! ## Failures -/

/-- C4 (as the code has it): when a file of the batch cannot be opened, `run`
stops at that file.  Nothing is produced for the files after it: the run is the
run on the arguments up to and including the failing one, and when the files
before it were processed to completion the log is theirs and the exception of
the failing file leaves `run`. -/
theorem failed_open_ends_the_batch {V : Type} (files : Files V) (count : Nat)
    (pre : List String) (arg : String) (post : List String) (e : Exception)
    (hopen : files arg = .error e) :
    run files count (pre ++ arg :: post) = run files count (pre ++ [arg])
    ∧ ((run files count pre).uncaught = none →
        run files count (pre ++ arg :: post) = ⟨(run files count pre).log, some e⟩) := by
  have h1 : ∀ rest, run files count (pre ++ arg :: rest) =
      match (run files count pre).uncaught with
      | none => ⟨(run files count pre).log, some e⟩
      | some _ => run files count pre := by
    intro rest
    rw [run_append, run_error files count arg rest e hopen]
    cases (run files count pre).uncaught <;> simp
  refine ⟨by rw [h1 post, h1 []], ?_⟩
  intro hpre
  rw [h1 post, hpre]

theorem failed_open_ends_the_batch_witness :
    run scenario 1 ["tracks.tck", "missing.tck", "miscounted.tck"] =
      ⟨(run scenario 1 ["tracks.tck"]).log, some ⟨"cannot open file"⟩⟩ :=
  (failed_open_ends_the_batch scenario 1 ["tracks.tck"] "missing.tck" ["miscounted.tck"]
    ⟨"cannot open file"⟩ rfl).2 (by decide)

/-- C4, as stated, fails: the first file of the batch cannot be opened, the
second one can and has a report, and `run` writes nothing at all. -/
theorem later_files_are_not_reported :
    scenario "missing.tck" = .error ⟨"cannot open file"⟩
    ∧ scenario "tracks.tck" = .ok (scenarioProperties, scenarioReader)
    ∧ stdout (report "tracks.tck" scenarioProperties) ≠ ""
    ∧ run scenario 0 ["missing.tck", "tracks.tck"] = ⟨[], some ⟨"cannot open file"⟩⟩
    ∧ stdout (run scenario 0 ["missing.tck", "tracks.tck"]).log = "" :=
  ⟨rfl, rfl, by decide, rfl, rfl⟩

/-- C5: `run` completes normally (exit code 0) exactly when every file of the
argument list opens and, in exact-count mode, the first unsuccessful step of
every reader is an end of data and not a failure; if some file cannot be
opened, `run` ends in failure (nonzero exit code). -/
theorem completes_iff_no_failure {V : Type} (files : Files V) (count : Nat)
    (argument : List String) :
    ((run files count argument).uncaught = none ↔
      ∀ arg ∈ argument, ∃ p file, files arg = .ok (p, file) ∧ (count ≠ 0 → ending file = none))
    ∧ (exitCode (run files count argument) = 0 ↔ (run files count argument).uncaught = none)
    ∧ ((∃ arg ∈ argument, ∃ e, files arg = .error e) →
        exitCode (run files count argument) ≠ 0) := by
  have key : (run files count argument).uncaught = none ↔
      ∀ arg ∈ argument, ∃ p file, files arg = .ok (p, file)
        ∧ (count ≠ 0 → ending file = none) := by
    induction argument with
    | nil => simp [run_nil]
    | cons arg rest ih => rw [uncaught_run_cons, ih]; simp
  refine ⟨key, exitCode_eq_zero _, ?_⟩
  rintro ⟨arg, hmem, e, he⟩ h0
  obtain ⟨p, file, hok, -⟩ := key.1 ((exitCode_eq_zero _).1 h0) arg hmem
  rw [he] at hok
  cases hok

/-- C8: for every file, the banner and all metadata, comment and ROI events of
the file come before the first call of the stepping operation on its reader;
and if a step then fails, the exception leaves `run` with the complete header
report of the file at the end of the output. -/
theorem report_precedes_first_step {V : Type} (files : Files V) (count : Nat)
    (pre : List String) (arg : String) (post : List String) (p : Properties) (file : Reader V)
    (hcount : count ≠ 0) (hpre : (run files count pre).uncaught = none)
    (hopen : files arg = .ok (p, file)) :
    (∃ o tail, (run files count (pre ++ arg :: post)).log =
        (run files count pre).log ++ report arg p ++ .call o :: tail)
    ∧ calls (report arg p) = []
    ∧ (∀ e, ending file = some e →
        (run files count (pre ++ arg :: post)).uncaught = some e
        ∧ stdout (run files count (pre ++ arg :: post)).log =
            stdout (run files count pre).log ++ stdout (report arg p)) := by
  have hc : decide (count ≠ 0) = true := by simpa using hcount
  have hrun : run files count (pre ++ arg :: post) =
      match ending file with
      | none => ⟨(run files count pre).log ++ (report arg p ++ (stepping file
          ++ [countLine (yielded file)]) ++ (run files count post).log),
          (run files count post).uncaught⟩
      | some e => ⟨(run files count pre).log ++ (report arg p ++ stepping file), some e⟩ := by
    rw [run_append, hpre, run_ok files count arg post p file hopen, hc]
    simp only [fileEnding, fileEvents, if_true]
    cases ending file with
    | none => simp
    | some e => simp
  have hstep : ∃ o tail, stepping file = .call o :: tail := by
    unfold stepping
    cases yielded file with
    | zero => exact ⟨_, [], rfl⟩
    | succ n => exact ⟨.returnedTrue, _, rfl⟩
  obtain ⟨o, tail, hs⟩ := hstep
  refine ⟨?_, calls_report arg p, ?_⟩
  · rw [hrun, hs]
    cases ending file with
    | none =>
      exact ⟨o, tail ++ [countLine (yielded file)] ++ (run files count post).log, by simp⟩
    | some e => exact ⟨o, tail, by simp⟩
  · intro e he
    rw [hrun, he]
    refine ⟨rfl, ?_⟩
    have hcalls : stdout (stepping file) = "" := by
      unfold stepping
      generalize yielded file = n
      induction n with
      | zero => simp [stdout]
      | succ n ih => simpa [List.replicate_succ, stdout] using ih
    simp [stdout_append, hcalls]

theorem report_precedes_first_step_witness :
    (run scenario 1 ["tracks.tck", "truncated.tck", "miscounted.tck"]).uncaught
        = some ⟨"short read"⟩
    ∧ stdout (run scenario 1 ["tracks.tck", "truncated.tck", "miscounted.tck"]).log =
        stdout (run scenario 1 ["tracks.tck"]).log
          ++ stdout (report "truncated.tck" scenarioProperties) :=
  (report_precedes_first_step scenario 1 ["tracks.tck"] "truncated.tck" ["miscounted.tck"]
    scenarioProperties truncatedReader (by decide) (by decide) rfl).2.2 ⟨"short read"⟩
    (by decide)

/-! ## Layout of the report -/

/-- C10: every metadata line is four spaces, a label of exactly 22 characters
and the value.  For a key of at most 21 characters the label is the key, a
colon and padding with spaces, and the key (and the value) can be recovered
from the line; for a key of 22 or more characters the label is the first 22
characters of the key, without colon, so two keys that share their first 22
characters get the same label. -/
theorem metadata_line_layout (entries : List (String × String)) (log : List Event)
    (key other value w : String) :
    printProperties entries log =
      log ++ entries.map (fun p => Event.cout ("    " ++ label p.1 ++ p.2 ++ "\n"))
    ∧ (label key).length = 22
    ∧ (key.length ≤ 21 →
        label key = key ++ ":" ++ ⟨List.replicate (21 - key.length) ' '⟩)
    ∧ (key.length ≤ 21 → other.length ≤ 21 →
        "    " ++ label key ++ value ++ "\n" = "    " ++ label other ++ w ++ "\n" →
        key = other ∧ value = w)
    ∧ (22 ≤ key.length → label key = ⟨key.data.take 22⟩)
    ∧ (22 ≤ key.length → 22 ≤ other.length → key.data.take 22 = other.data.take 22 →
        label key = label other) := by
  refine ⟨printProperties_eq entries log, label_length key, label_short key, ?_,
    label_long key, ?_⟩
  · intro h1 h2 h
    have hd := congrArg String.data h
    simp only [String.data_append, List.append_assoc] at hd
    have hd := List.append_cancel_left hd
    have hlen : (label key).data.length = (label other).data.length := by
      have a := label_length key
      have b := label_length other
      exact a.trans b.symm
    obtain ⟨hl, hr⟩ := List.append_inj hd hlen
    have hkey := label_inj key other h1 h2 (String.ext hl)
    exact ⟨hkey, String.ext (List.append_cancel_right hr)⟩
  · intro h1 h2 h
    rw [label_long key h1, label_long other h2, h]

theorem metadata_line_layout_witness :
    label "count" = "count:                "
    ∧ label "a_very_long_key_of_30_chars_aa" = "a_very_long_key_of_30_"
    ∧ label "a_very_long_key_of_30_chars_aa" = label "a_very_long_key_of_30_chars_bb" :=
  ⟨(metadata_line_layout [] [] "count" "" "" "").2.2.1 (by decide),
   (metadata_line_layout [] [] "a_very_long_key_of_30_chars_aa" "" "" "").2.2.2.2.1 (by decide),
   (metadata_line_layout [] [] "a_very_long_key_of_30_chars_aa" "a_very_long_key_of_30_chars_bb"
      "" "").2.2.2.2.2 (by decide) (by decide) (by decide)⟩

/-! ## The count line and the header -/

/-- C6: the report preserves order.  For every file that opens, `run` prints
the banner and the file name, then exactly one event per metadata entry in the
order of the mapping, then the comments in their stored order (separated by a
newline and a space, under the label `Comments:`), then exactly one event per
ROI entry in list order, duplicates included; and the text of a metadata or ROI
event is exactly one line when the entry holds no newline character. -/
theorem report_preserves_order {V : Type} (files : Files V) (count : Nat)
    (pre : List String) (arg : String) (post : List String) (p : Properties) (file : Reader V)
    (hpre : (run files count pre).uncaught = none) (hopen : files arg = .ok (p, file)) :
    (∃ tail, (run files count (pre ++ arg :: post)).log =
        (run files count pre).log
        ++ [Event.cout "***********************************\n",
            Event.cout ("  Tracks file: \"" ++ arg ++ "\"\n")]
        ++ p.entries.map (fun e => Event.cout ("    " ++ label e.1 ++ e.2 ++ "\n"))
        ++ (if p.comments = [] then []
            else [Event.cout "    Comments:             ",
                  Event.cout ("\n ".intercalate p.comments ++ "\n")])
        ++ p.roi.map (fun r => Event.cout ("    ROI:                  " ++ r.1 ++ " " ++ r.2 ++ "\n"))
        ++ tail)
    ∧ (∀ e ∈ p.entries, oneLine e.1 = true → oneLine e.2 = true →
        lines ("    " ++ label e.1 ++ e.2 ++ "\n").data = [("    " ++ label e.1 ++ e.2).data, []])
    ∧ (∀ r ∈ p.roi, oneLine r.1 = true → oneLine r.2 = true →
        lines ("    ROI:                  " ++ r.1 ++ " " ++ r.2 ++ "\n").data =
          [("    ROI:                  " ++ r.1 ++ " " ++ r.2).data, []]) := by
  refine ⟨?_, ?_, ?_⟩
  · obtain ⟨tail, ht⟩ := run_log_report files count arg post p file hopen
    refine ⟨tail, ?_⟩
    rw [run_append, hpre]
    simp only [ht, report, commentBlock, join_eq_intercalate]
    simp
    rfl
  · intro e _ h1 h2
    rw [oneLine_iff] at h1 h2
    have hd : ("    " ++ label e.1 ++ e.2 ++ "\n").data =
        ("    " ++ label e.1 ++ e.2).data ++ '\n' :: [] := by
      simp only [String.data_append]
    have hn : '\n' ∉ ("    " ++ label e.1 ++ e.2).data := by
      have h0 : '\n' ∉ "    ".data := by decide
      simp only [String.data_append, List.mem_append, not_or]
      exact ⟨⟨h0, label_oneLine e.1 h1⟩, h2⟩
    rw [hd, lines_line _ _ hn]
    rfl
  · intro r _ h1 h2
    rw [oneLine_iff] at h1 h2
    have hd : ("    ROI:                  " ++ r.1 ++ " " ++ r.2 ++ "\n").data =
        ("    ROI:                  " ++ r.1 ++ " " ++ r.2).data ++ '\n' :: [] := by
      simp only [String.data_append]
    have hn : '\n' ∉ ("    ROI:                  " ++ r.1 ++ " " ++ r.2).data := by
      have h0 : '\n' ∉ "    ROI:                  ".data := by decide
      have h3 : '\n' ∉ " ".data := by decide
      simp only [String.data_append, List.mem_append, not_or]
      exact ⟨⟨⟨h0, h1⟩, h3⟩, h2⟩
    rw [hd, lines_line _ _ hn]
    rfl

theorem report_preserves_order_witness :
    ∃ tail, (run scenario 1 ["miscounted.tck", "tracks.tck"]).log =
      (run scenario 1 ["miscounted.tck"]).log
      ++ [Event.cout "***********************************\n",
          Event.cout "  Tracks file: \"tracks.tck\"\n"]
      ++ [Event.cout "    datatype:             Float32LE\n",
          Event.cout "    count:                3\n"]
      ++ [Event.cout "    Comments:             ",
          Event.cout "subject 07\n"]
      ++ [Event.cout "    ROI:                  seed_mask <path>\n"]
      ++ tail :=
  (report_preserves_order scenario 1 ["miscounted.tck"] "tracks.tck" []
    scenarioProperties scenarioReader (by decide) rfl).1

/-- C7 (as the code has it): a comment is told apart from a metadata entry in
the printed report by the label only.  When two headers agree on the metadata
entries in front of some place where the first goes on with an entry of key
`k` and the second, having no more entries, goes on with its comments, the two
outputs differ as soon as the 22-character label of `k` is not `Comments:`
followed by 13 spaces. -/
theorem comment_differs_from_metadata_by_label {V : Type} (files other : Files V)
    (count count' : Nat) (arg : String) (rest rest' : List String)
    (es es' : List (String × String)) (k v : String) (cs : List String)
    (rs : List (String × String)) (c : String) (cs' : List String)
    (rs' : List (String × String)) (file file' : Reader V)
    (hfiles : files arg = .ok (⟨es ++ (k, v) :: es', cs, rs⟩, file))
    (hother : other arg = .ok (⟨es, c :: cs', rs'⟩, file'))
    (hk : label k ≠ "Comments:             ") :
    stdout (run files count (arg :: rest)).log ≠ stdout (run other count' (arg :: rest')).log := by
  obtain ⟨t, ht⟩ := run_log_report files count arg rest _ file hfiles
  obtain ⟨t', ht'⟩ := run_log_report other count' arg rest' _ file' hother
  obtain ⟨R, hR⟩ := report_with_entry arg es es' k v cs rs t
  obtain ⟨R', hR'⟩ := report_with_comment arg es c cs' rs' t'
  intro h
  have hd := congrArg String.data h
  rw [ht, ht', hR, hR'] at hd
  have h1 := List.append_cancel_left (List.append_cancel_left hd)
  have hlen : (label k).data.length = "Comments:             ".data.length :=
    label_length k
  exact hk (String.ext (List.append_inj h1 hlen).1)

theorem comment_differs_from_metadata_by_label_witness :
    stdout (run (fun _ => .ok (⟨[("comment", "subject 07")], [], []⟩, scenarioReader)) 0
        ["tracks.tck"]).log
      ≠ stdout (run (fun _ => .ok (asComment, scenarioReader)) 0 ["tracks.tck"]).log :=
  comment_differs_from_metadata_by_label _ _ 0 0 "tracks.tck" [] [] [] [] "comment" "subject 07"
    [] [] "subject 07" [] [] scenarioReader scenarioReader rfl rfl (by decide)

/-- C7, as stated, fails: a header holding "subject 07" under the metadata key
`Comments` and a header holding it as a comment are different headers with the
same printed text. -/
theorem comment_printed_like_metadata :
    asMetadata ≠ asComment
    ∧ stdout (run (fun _ => .ok (asMetadata, scenarioReader)) 0 ["tracks.tck"]).log
        = stdout (run (fun _ => .ok (asComment, scenarioReader)) 0 ["tracks.tck"]).log
    ∧ stdout (run (fun _ => .ok (asComment, scenarioReader)) 0 ["tracks.tck"]).log
        = "***********************************\n  Tracks file: \"tracks.tck\"\n    Comments:             subject 07\n" :=
  ⟨by decide, rfl, rfl⟩

end Tckinfo
